import Mathlib

/-!
Verification of the bug-localization engine of `jira-gitlab-helper`
(`src/services/bug-analysis-service.ts`).

The TypeScript service is shallowly embedded below.  JavaScript strings are
modelled by `String` / `List Char`, JS numbers that are always integers by
`Nat` / `Int`, and the two external effects of the service are passed in as
explicit parameters:

* the workspace file enumeration (`vscode.workspace.findFiles` plus
  `fs.readFile`) becomes a `List FileEntry` of relative paths with contents;
* the `git log` subprocess becomes `gitLog : String → Except Unit String`
  (stdout on success, an exception otherwise);
* the AI chat call becomes `chatResult : Except Unit String`;
* `JSON.parse` of the AI reply becomes an `Option ParsedFix` parse outcome.

Everything else (keyword extraction, relevance scoring, the two stack-trace
regular expressions with JavaScript backtracking semantics, candidate
construction, commit classification, the fallback fix suggestion) is
translated directly from the source.
-/

namespace BugAnalysisService

/-! ### JavaScript string primitives -/

/-- Character class of the regexp escape `\s` (ASCII fragment of the
JavaScript whitespace set, which is all that the embedded code meets). -/
def wsChar (c : Char) : Bool :=
  c = ' ' ∨ c = '\t' ∨ c = '\n' ∨ c = '\r' ∨ c = '\x0b' ∨ c = '\x0c'

/-- Character class of the regexp escape `\d`. -/
def digitChar (c : Char) : Bool :=
  '0' ≤ c ∧ c ≤ '9'

/-- Character class of the regexp escape `\w` (`[A-Za-z0-9_]`). -/
def wordChar (c : Char) : Bool :=
  ('a' ≤ c ∧ c ≤ 'z') ∨ ('A' ≤ c ∧ c ≤ 'Z') ∨ ('0' ≤ c ∧ c ≤ '9') ∨ c = '_'

/-- JavaScript `String.prototype.toLowerCase` (ASCII case mapping; the
Chinese characters appearing in the source are fixed points in both). -/
def jsToLower (s : String) : String :=
  ⟨s.data.map Char.toLower⟩

/-- Boolean test that `pre` is a prefix of the second list. -/
def listPrefixB : List Char → List Char → Bool
  | [], _ => true
  | _ :: _, [] => false
  | a :: as, b :: bs => a == b && listPrefixB as bs

/-- Boolean substring test: `sub` occurs contiguously in the second list. -/
def containsList (sub : List Char) : List Char → Bool
  | [] => listPrefixB sub []
  | a :: t => listPrefixB sub (a :: t) || containsList sub t

/-- JavaScript `s.includes(sub)`. -/
def jsIncludes (s sub : String) : Bool :=
  containsList sub.data s.data

/-- Splitting at every character satisfying `p`, JavaScript style: the
result always has one part more than there are separator characters, with
empty parts kept. -/
def splitOnPred (p : Char → Bool) : List Char → List (List Char)
  | [] => [[]]
  | c :: rest =>
    match splitOnPred p rest with
    | [] => if p c then [[], []] else [[c]]
    | h :: t => if p c then [] :: h :: t else (c :: h) :: t

/-- JavaScript `s.split(sep)` for a one-character separator. -/
def splitStr (sep : Char) (s : String) : List String :=
  (splitOnPred (· = sep) s.data).map String.mk

/-- `content.split('\n')`, the line decomposition used throughout the
service. -/
def splitLines (s : String) : List String :=
  splitStr '\n' s

/-- JavaScript `s.trim()` (ASCII whitespace fragment). -/
def jsTrim (s : String) : String :=
  ⟨((s.data.dropWhile wsChar).reverse.dropWhile wsChar).reverse⟩

/-- JavaScript `Array.prototype.slice(a, b)` for in-range indices `a ≤ b`
(the code always clamps the arguments itself). -/
def jsSlice (l : List α) (a b : Nat) : List α :=
  (l.take b).drop a

/-- `parseInt(digits, 10)` on a non-empty all-digit string. -/
def parseNatDigits (l : List Char) : Nat :=
  l.foldl (fun n c => n * 10 + (c.toNat - 48)) 0

/-- JavaScript `x || d` on string values: `undefined`/`null` (here `none`)
and the empty string are falsy and select the default. -/
def jsOrStr (o : Option String) (d : String) : String :=
  match o with
  | none => d
  | some s => if s = "" then d else s

/-- Accumulator pass of `dedupFirst`; `seen` holds the values already kept. -/
def dedupFirstAux : List String → List String → List String
  | _, [] => []
  | seen, a :: rest =>
    if a ∈ seen then dedupFirstAux seen rest
    else a :: dedupFirstAux (a :: seen) rest

/-- JavaScript `[...new Set(words)]`: deduplication keeping the first
occurrence of each value, in encounter order. -/
def dedupFirst (l : List String) : List String :=
  dedupFirstAux [] l

/-- Index of the last occurrence of `c`, mirroring `s.lastIndexOf(c)`
(`none` standing for the JavaScript result `-1`). -/
def lastIndexOfChar (c : Char) (l : List Char) : Option Nat :=
  l.enum.foldl (fun acc p => if p.2 = c then some p.1 else acc) none

/-! ### The two stack-trace regular expressions

The source matches each trace line against
`/at\s+(.+)\((.+):(\d+)\)/`            (Java grammar) and then
`/at\s+(.+?)\s+\((.+):(\d+):\d+\)/`    (JS/TS grammar).
Both are sequences of literals and repeated character classes, so they are
embedded as such, with a leftmost-match backtracking interpreter that
reproduces JavaScript semantics: greedy `+` tries the longest repetition
first, lazy `+?` the shortest, and the whole pattern is tried at every
start position from the left. -/

/-- Character classes occurring in the two patterns.  The dot of a regexp
without the `s` flag matches everything except line terminators. -/
inductive CharCls
  | ws
  | digit
  | dot
deriving DecidableEq

def clsPred : CharCls → Char → Bool
  | .ws => wsChar
  | .digit => digitChar
  | .dot => fun c => ¬ (c = '\n' ∨ c = '\r' ∨ c = Char.ofNat 0x2028 ∨ c = Char.ofNat 0x2029)

/-- One pattern element: a literal character, or a `+`-repeated character
class, greedy or lazy, capturing or not. -/
inductive RItem
  | lit (c : Char)
  | plus (cls : CharCls) (greedy : Bool) (capture : Bool)
deriving DecidableEq

/-- Backtracking matcher.  `matchItems fuel items s` matches `items`
against a prefix of `s` (the pattern end is unanchored) and returns the
captured groups in order.  Each step consumes one pattern item, so
`items.length + 1` fuel always suffices. -/
def matchItems : Nat → List RItem → List Char → Option (List (List Char))
  | 0, _, _ => none
  | _ + 1, [], _ => some []
  | fuel + 1, .lit c :: rest, s =>
    match s with
    | [] => none
    | d :: ds => if d = c then matchItems fuel rest ds else none
  | fuel + 1, .plus cls greedy cap :: rest, s =>
    let maxN := (s.takeWhile (clsPred cls)).length
    let counts :=
      if greedy then (List.range maxN).map (fun k => maxN - k)
      else (List.range maxN).map (· + 1)
    counts.findSome? fun n =>
      (matchItems fuel rest (s.drop n)).map fun caps =>
        if cap then s.take n :: caps else caps

/-- `s.match(re)` for the embedded patterns: the pattern is tried at every
start position from the left, returning the captures of the first match. -/
def regexFind (items : List RItem) : List Char → Option (List (List Char))
  | [] => matchItems (items.length + 1) items []
  | a :: rest =>
    match matchItems (items.length + 1) items (a :: rest) with
    | some caps => some caps
    | none => regexFind items rest

/-- `/at\s+(.+)\((.+):(\d+)\)/` — the Java-style grammar. -/
def javaStackRe : List RItem :=
  [.lit 'a', .lit 't', .plus .ws true false,
   .plus .dot true true, .lit '(',
   .plus .dot true true, .lit ':',
   .plus .digit true true, .lit ')']

/-- `/at\s+(.+?)\s+\((.+):(\d+):\d+\)/` — the JS/TS-style grammar. -/
def jsStackRe : List RItem :=
  [.lit 'a', .lit 't', .plus .ws true false,
   .plus .dot false true, .plus .ws true false, .lit '(',
   .plus .dot true true, .lit ':',
   .plus .digit true true, .lit ':',
   .plus .digit true false, .lit ')']

/-! ### Data model (`models/bug-analysis.ts`) -/

structure IBugInfo where
  issueKey : String := ""
  summary : String
  description : String
  stepsToReproduce : List String := []
  expectedBehavior : String := ""
  actualBehavior : String := ""
  environment : String := ""
  stackTrace : Option String := none
  affectedVersion : Option String := none
  severity : String := ""
deriving DecidableEq

structure SearchContext where
  before : List String
  after : List String
deriving DecidableEq

structure ICodeSearchResult where
  filePath : String
  lineNumber : Nat
  content : String
  relevanceScore : Int
  context : SearchContext
deriving DecidableEq

structure IStackTraceFrame where
  fileName : String
  lineNumber : Nat
  functionName : String
  className : Option String := none
deriving DecidableEq

structure ICodeChange where
  commitHash : String
  author : String
  date : String
  message : String
  files : List String
  suspicious : Bool
  reason : Option String
deriving DecidableEq

structure PossibleCause where
  description : String
  confidence : Int
  relatedFiles : List String
  evidence : List String
deriving DecidableEq

structure IBugAnalysis where
  possibleCauses : List PossibleCause
  suggestedLocations : List ICodeSearchResult
  relatedChanges : List ICodeChange
  analysisNotes : List String
deriving DecidableEq

structure ICodeChangeItem where
  filePath : String
  changeType : String
  originalCode : Option String := none
  suggestedCode : Option String := none
  lineNumber : Option Nat := none
deriving DecidableEq

structure IBugFixSuggestion where
  type : String
  description : String
  rootCause : String
  fixSteps : List String
  codeChanges : Option (List ICodeChangeItem)
  testSuggestions : List String
  risks : List String
deriving DecidableEq

/-- One workspace file as seen by the service: its path relative to the
workspace root (which is what `path.relative(workspaceUri.fsPath, ·)`
produces) and its text content.  The list models the result of
`vscode.workspace.findFiles('**/*.{ts,js,tsx,jsx,java,py}', '**/node_modules/**')`. -/
structure FileEntry where
  path : String
  content : String
deriving DecidableEq

/-! ### `extractKeywords` and `calculateRelevance` -/

/-- The fixed stopword list of `extractKeywords`. -/
def commonWords : List String :=
  ["the", "and", "for", "with", "this", "that", "when", "then"]

/-- `extractKeywords`: lower-cases `summary + " " + description`, replaces
every character outside `[\w\s]` by a space, splits on whitespace, keeps
words longer than 3 characters, removes duplicates (first occurrence wins)
and stopwords, and truncates to 10 terms. -/
def extractKeywords (bugInfo : IBugInfo) : List String :=
  let text := bugInfo.summary ++ " " ++ bugInfo.description
  let cleaned : String :=
    ⟨(jsToLower text).data.map fun c => if wordChar c || wsChar c then c else ' '⟩
  let words := ((splitOnPred wsChar cleaned.data).map String.mk).filter fun w => w.length > 3
  ((dedupFirst words).filter fun w => ¬ commonWords.contains w).take 10

/-- `calculateRelevance`: number of keywords of the list occurring
case-insensitively in the line, accumulated exactly as the source's
`score += 1` loop does. -/
def calculateRelevance (line : String) (keywords : List String) : Int :=
  keywords.foldl
    (fun score keyword =>
      if jsIncludes (jsToLower line) (jsToLower keyword) then score + 1 else score)
    0

/-! ### `searchRelatedCode` -/

/-- The candidate that `searchRelatedCode` pushes for line index `i`
(0-based) of a file: 1-based line number, trimmed line content, relevance
against the whole keyword list, and the `slice`-based context window. -/
def mkSearchResult (keywords : List String) (filePath : String)
    (lines : List String) (i : Nat) : ICodeSearchResult :=
  let line := lines.getD i ""
  { filePath := filePath
    lineNumber := i + 1
    content := jsTrim line
    relevanceScore := calculateRelevance line keywords
    context :=
      { before := jsSlice lines (i - 2) i
        after := jsSlice lines (i + 1) (min lines.length (i + 3)) } }

/-- Inner `lines.forEach` of `searchRelatedCode`: for one keyword and one
file, a candidate for every line containing the keyword
case-insensitively. -/
def fileKeywordMatches (keywords : List String) (keyword : String)
    (f : FileEntry) : List ICodeSearchResult :=
  let lines := splitLines f.content
  (List.range lines.length).filterMap fun i =>
    if jsIncludes (jsToLower (lines.getD i "")) (jsToLower keyword) then
      some (mkSearchResult keywords f.path lines i)
    else none

/-- All candidates accumulated by `searchRelatedCode` before sorting: the
outer loop runs per keyword, re-enumerates the (first 50) files each time,
and pushes per-line matches. -/
def searchRelatedCodeRaw (files : List FileEntry) (bugInfo : IBugInfo) :
    List ICodeSearchResult :=
  let keywords := extractKeywords bugInfo
  keywords.flatMap fun keyword =>
    (files.take 50).flatMap (fileKeywordMatches keywords keyword)

/-- Order imposed by the comparator `(a, b) => b.relevanceScore - a.relevanceScore`:
`a` may precede `b` exactly when `b.relevanceScore ≤ a.relevanceScore`. -/
def scoreGe (a b : ICodeSearchResult) : Prop :=
  b.relevanceScore ≤ a.relevanceScore

instance : DecidableRel scoreGe := fun a b => Int.decLe b.relevanceScore a.relevanceScore

instance : IsTotal ICodeSearchResult scoreGe :=
  ⟨fun a b => Int.le_total b.relevanceScore a.relevanceScore⟩

instance : IsTrans ICodeSearchResult scoreGe :=
  ⟨fun _ _ _ h1 h2 => le_trans h2 h1⟩

/-- `searchRelatedCode`: stable sort descending by score (JavaScript
`Array.prototype.sort` is stable, and the stable sort by a total preorder
is unique, so insertion sort is an exact model), then `slice(0, 20)`. -/
def searchRelatedCode (files : List FileEntry) (bugInfo : IBugInfo) :
    List ICodeSearchResult :=
  (List.insertionSort scoreGe (searchRelatedCodeRaw files bugInfo)).take 20

/-! ### `parseStackTrace` and its helpers -/

/-- `fullMethod.substring(0, fullMethod.lastIndexOf('.'))`; `lastIndexOf`
returning `-1` makes `substring(0, -1)` clamp to the empty string. -/
def classNameOf (fm : String) : String :=
  match lastIndexOfChar '.' fm.data with
  | none => ""
  | some i => ⟨fm.data.take i⟩

/-- `path.basename` (POSIX): the part after the last `/`. -/
def basenameOf (s : String) : String :=
  match lastIndexOfChar '/' s.data with
  | none => s
  | some i => ⟨s.data.drop (i + 1)⟩

/-- One parsed trace line.  The Java grammar is tried first; on a match the
JS/TS grammar is skipped (`continue`).  Group bookkeeping mirrors the
destructurings `[, fullMethod, fileName, lineNumber]` and
`[, functionName, fileName, lineNumber]`; each pattern has exactly three
groups, so the catch-all arms for other capture counts are unreachable. -/
def lineFrames (line : String) : List IStackTraceFrame :=
  match regexFind javaStackRe line.data with
  | some [fullMethod, fileName, lineNumber] =>
    [{ fileName := ⟨fileName⟩
       lineNumber := parseNatDigits lineNumber
       functionName := jsOrStr ((splitStr '.' ⟨fullMethod⟩).getLast?) ⟨fullMethod⟩
       className := some (classNameOf ⟨fullMethod⟩) }]
  | some _ => []
  | none =>
    match regexFind jsStackRe line.data with
    | some [functionName, fileName, lineNumber] =>
      [{ fileName := basenameOf ⟨fileName⟩
         lineNumber := parseNatDigits lineNumber
         functionName := ⟨functionName⟩
         className := none }]
    | some _ => []
    | none => []

/-- `extractStackTraceFrames`: the `for`-loop over the trace lines, pushing
the frames of each line in order. -/
def extractStackTraceFrames (stackTrace : String) : List IStackTraceFrame :=
  (splitLines stackTrace).foldl (fun frames line => frames ++ lineFrames line) []

/-- `findFileInWorkspace`: first file produced by
`vscode.workspace.findFiles('**/<fileName>')`, i.e. the first workspace
file whose path is `fileName` or ends with `/<fileName>`. -/
def findFileInWorkspace (files : List FileEntry) (fileName : String) :
    Option FileEntry :=
  files.find? fun f =>
    f.path = fileName || listPrefixB ("/" ++ fileName).data.reverse f.path.data.reverse

/-- Body of the `parseStackTrace` loop for one frame: resolve the file,
check `0 ≤ lineIndex < lines.length`, and push a candidate with the fixed
relevance constant 10 and the five-line context windows. -/
def resolveFrame (files : List FileEntry) (frame : IStackTraceFrame) :
    List ICodeSearchResult :=
  match findFileInWorkspace files frame.fileName with
  | none => []
  | some f =>
    let lines := splitLines f.content
    if 1 ≤ frame.lineNumber ∧ frame.lineNumber - 1 < lines.length then
      [{ filePath := f.path
         lineNumber := frame.lineNumber
         content := jsTrim (lines.getD (frame.lineNumber - 1) "")
         relevanceScore := 10
         context :=
           { before := jsSlice lines (frame.lineNumber - 1 - 5) (frame.lineNumber - 1)
             after := jsSlice lines frame.lineNumber (min lines.length (frame.lineNumber + 5)) } }]
    else []

/-- `parseStackTrace`. -/
def parseStackTrace (files : List FileEntry) (stackTrace : String) :
    List ICodeSearchResult :=
  (extractStackTraceFrames stackTrace).flatMap (resolveFrame files)

/-! ### `analyzeCodeChanges` and `isSuspiciousCommit` -/

def suspiciousKeywords : List String :=
  ["fix", "bug", "issue", "修复", "问题", "hotfix", "patch"]

/-- `isSuspiciousCommit`: some keyword of the fixed list occurs in the
lower-cased commit message. -/
def isSuspiciousCommit (message : String) : Bool :=
  suspiciousKeywords.any fun keyword => jsIncludes (jsToLower message) keyword

/-- One line of `git log --pretty=format:"%H|%an|%ad|%s"` turned into an
`ICodeChange`, following the destructuring
`[hash, author, date, message] = commit.split('|')`. -/
def parseCommitLine (filePath commit : String) : ICodeChange :=
  let parts := splitStr '|' commit
  let message := parts.getD 3 ""
  { commitHash := parts.getD 0 ""
    author := parts.getD 1 ""
    date := parts.getD 2 ""
    message := message
    files := [filePath]
    suspicious := isSuspiciousCommit message
    reason := if isSuspiciousCommit message then some "提交消息包含可疑关键词" else none }

/-- Loop of `analyzeCodeChanges` over the (already `slice(0, 5)`-bounded)
candidate list, threading the `analyzedFiles` dedup set.  A `git log`
failure raises, which `Except` propagates to the surrounding catch. -/
def gitLogLoop (gitLog : String → Except Unit String) :
    List ICodeSearchResult → List String → Except Unit (List ICodeChange)
  | [], _ => .ok []
  | location :: rest, analyzedFiles =>
    if location.filePath ∈ analyzedFiles then gitLogLoop gitLog rest analyzedFiles
    else
      match gitLog location.filePath with
      | .error e => .error e
      | .ok stdout =>
        let commits := (splitStr '\n' stdout).filter fun s => ¬ s = ""
        match gitLogLoop gitLog rest (location.filePath :: analyzedFiles) with
        | .error e => .error e
        | .ok restChanges => .ok (commits.map (parseCommitLine location.filePath) ++ restChanges)

/-- `analyzeCodeChanges`: the whole loop runs inside one `try`; any raised
log failure reaches the catch, which logs and returns `[]`. -/
def analyzeCodeChanges (gitLog : String → Except Unit String)
    (locations : List ICodeSearchResult) : List ICodeChange :=
  match gitLogLoop gitLog (locations.take 5) [] with
  | .ok changes => changes
  | .error _ => []

/-! ### `performAIAnalysis`, `analyzeBug`, prompt assembly, `parseFixSuggestion` -/

structure AIAnalysisOutcome where
  possibleCauses : List PossibleCause
  analysisNotes : List String
deriving DecidableEq

/-- `performAIAnalysis`: on a successful chat the reply text becomes the
single analysis note; on failure a fixed note is used.  `possibleCauses`
is the literal `[]` on both paths. -/
def performAIAnalysis (chatResult : Except Unit String) : AIAnalysisOutcome :=
  match chatResult with
  | .ok content => { possibleCauses := [], analysisNotes := [content] }
  | .error _ => { possibleCauses := [], analysisNotes := ["AI分析暂时不可用"] }

/-- The stack-trace branch of `analyzeBug`: locations are resolved only
when `bugInfo.stackTrace` is set. -/
def stackTraceLocations (files : List FileEntry) (bugInfo : IBugInfo) :
    List ICodeSearchResult :=
  match bugInfo.stackTrace with
  | some st => parseStackTrace files st
  | none => []

/-- `analyzeBug`.  `aiAnalysis.possibleCauses || []` and
`aiAnalysis.analysisNotes || []` are identities here because JavaScript
arrays are truthy and both fields are always arrays. -/
def analyzeBug (files : List FileEntry) (gitLog : String → Except Unit String)
    (chatResult : Except Unit String) (bugInfo : IBugInfo) : IBugAnalysis :=
  let searchResults := searchRelatedCode files bugInfo
  let stackLocations := stackTraceLocations files bugInfo
  let aiAnalysis := performAIAnalysis chatResult
  { possibleCauses := aiAnalysis.possibleCauses
    suggestedLocations := searchResults ++ stackLocations
    relatedChanges := analyzeCodeChanges gitLog (searchResults ++ stackLocations)
    analysisNotes := aiAnalysis.analysisNotes }

/-- JavaScript `parts.join(sep)`. -/
def joinWith (sep : String) : List String → String
  | [] => ""
  | p :: rest => rest.foldl (fun acc x => acc ++ sep ++ x) p

/-- The `可能原因` ("possible causes") block of `buildAnalysisContext`:
`analysis.possibleCauses.map((c, i) => ...).join('\n')`. -/
def possibleCausesSection (analysis : IBugAnalysis) : String :=
  joinWith "\n" (analysis.possibleCauses.enum.map fun p =>
    toString (p.1 + 1) ++ ". " ++ p.2.description ++ " (置信度: " ++ toString p.2.confidence ++ "%)")

/-- Shape of a successfully `JSON.parse`d AI reply, with each property
optional (`none` models a missing/`undefined` or `null` property, also
covering non-object parse results). -/
structure ParsedFix where
  type : Option String := none
  description : Option String := none
  rootCause : Option String := none
  fixSteps : Option (List String) := none
  codeChanges : Option (List ICodeChangeItem) := none
  testSuggestions : Option (List String) := none
  risks : Option (List String) := none
deriving DecidableEq

/-- `parseFixSuggestion`.  `parseOutcome` is the result of
`JSON.parse(aiResponse)`: `none` when parsing throws, in which case the
catch produces the deterministic fallback.  For array-valued properties
`x || []` only replaces `undefined`/`null` (arrays themselves are truthy),
hence `Option.getD`; for string-valued ones the empty string is also
falsy, hence `jsOrStr`. -/
def parseFixSuggestion (parseOutcome : Option ParsedFix) (aiResponse : String)
    (analysis : IBugAnalysis) : IBugFixSuggestion :=
  match parseOutcome with
  | some parsed =>
    { type := jsOrStr parsed.type "complex"
      description := jsOrStr parsed.description ""
      rootCause := jsOrStr parsed.rootCause ""
      fixSteps := parsed.fixSteps.getD []
      codeChanges := parsed.codeChanges
      testSuggestions := parsed.testSuggestions.getD []
      risks := parsed.risks.getD [] }
  | none =>
    { type := "complex"
      description := aiResponse
      rootCause := jsOrStr ((analysis.possibleCauses.head?).map (·.description)) "Unknown"
      fixSteps := ["请手动分析并修复Bug"]
      codeChanges := none
      testSuggestions := ["添加相关测试用例"]
      risks := ["需要人工审查"] }

/-! ### Basic lemmas about the string primitives -/

theorem listPrefixB_iff (sub : List Char) : ∀ s, listPrefixB sub s = true ↔ ∃ t, s = sub ++ t := by
  induction sub with
  | nil =>
    intro s
    simp only [listPrefixB, List.nil_append]
    exact ⟨fun _ => ⟨s, rfl⟩, fun _ => trivial⟩
  | cons a as ih =>
    intro s
    cases s with
    | nil =>
      simp only [listPrefixB, List.cons_append]
      constructor
      · intro h; cases h
      · rintro ⟨t, ht⟩; cases ht
    | cons b bs =>
      simp only [listPrefixB, Bool.and_eq_true, beq_iff_eq, List.cons_append]
      constructor
      · rintro ⟨rfl, h⟩
        obtain ⟨t, rfl⟩ := (ih bs).1 h
        exact ⟨t, rfl⟩
      · rintro ⟨t, ht⟩
        injection ht with h1 h2
        exact ⟨h1.symm, (ih bs).2 ⟨t, h2⟩⟩

theorem containsList_iff (sub : List Char) : ∀ s, containsList sub s = true ↔ ∃ u v, s = u ++ sub ++ v := by
  intro s
  induction s with
  | nil =>
    simp only [containsList, listPrefixB_iff]
    constructor
    · rintro ⟨t, ht⟩
      rcases (List.append_eq_nil).1 ht.symm with ⟨rfl, rfl⟩
      exact ⟨[], [], rfl⟩
    · rintro ⟨u, v, huv⟩
      rcases (List.append_eq_nil).1 huv.symm with ⟨h1, rfl⟩
      rcases (List.append_eq_nil).1 h1 with ⟨rfl, rfl⟩
      exact ⟨[], rfl⟩
  | cons a t ih =>
    simp only [containsList, Bool.or_eq_true, listPrefixB_iff, ih]
    constructor
    · rintro (⟨w, hw⟩ | ⟨u, v, huv⟩)
      · exact ⟨[], w, by simpa using hw⟩
      · exact ⟨a :: u, v, by simp [huv]⟩
    · rintro ⟨u, v, huv⟩
      cases u with
      | nil => exact Or.inl ⟨v, by simpa using huv⟩
      | cons c u' =>
        rw [List.cons_append, List.cons_append] at huv
        injection huv with h1 h2
        exact Or.inr ⟨u', v, h2⟩

theorem foldl_score_eq_countP (p : String → Bool) :
    ∀ (ks : List String) (n : Int),
      ks.foldl (fun score k => if p k then score + 1 else score) n = n + ks.countP p := by
  intro ks
  induction ks with
  | nil => intro n; simp
  | cons k ks ih =>
    intro n
    rw [List.foldl_cons, List.countP_cons, ih]
    by_cases h : p k
    · simp only [h, if_true]
      push_cast
      ring
    · simp [h]

theorem calculateRelevance_eq_countP (line : String) (ks : List String) :
    calculateRelevance line ks =
      ((ks.countP fun kw => jsIncludes (jsToLower line) (jsToLower kw) : Nat) : Int) := by
  simpa using
    foldl_score_eq_countP (fun kw => jsIncludes (jsToLower line) (jsToLower kw)) ks 0

theorem calculateRelevance_nonneg (line : String) (ks : List String) :
    0 ≤ calculateRelevance line ks := by
  rw [calculateRelevance_eq_countP]
  exact Int.natCast_nonneg _

theorem mem_dedupFirstAux :
    ∀ (l seen : List String) (b : String), b ∈ dedupFirstAux seen l → b ∉ seen := by
  intro l
  induction l with
  | nil => intro seen b h; simp [dedupFirstAux] at h
  | cons a rest ih =>
    intro seen b h
    simp only [dedupFirstAux] at h
    split_ifs at h with ha
    · exact ih seen b h
    · rcases List.mem_cons.1 h with rfl | h2
      · exact ha
      · intro hb
        exact ih (a :: seen) b h2 (List.mem_cons_of_mem _ hb)

theorem nodup_dedupFirstAux : ∀ (l seen : List String), (dedupFirstAux seen l).Nodup := by
  intro l
  induction l with
  | nil => intro seen; simp [dedupFirstAux]
  | cons a rest ih =>
    intro seen
    simp only [dedupFirstAux]
    split_ifs with ha
    · exact ih seen
    · rw [List.nodup_cons]
      refine ⟨fun hmem => ?_, ih (a :: seen)⟩
      exact (mem_dedupFirstAux rest (a :: seen) a hmem) (List.mem_cons_self a seen)

/-- The keyword list is duplicate-free (the `Set` pass), so counting
keywords occurring on a line counts *distinct* keywords. -/
theorem extractKeywords_nodup (bug : IBugInfo) : (extractKeywords bug).Nodup :=
  List.Sublist.nodup (List.take_sublist _ _)
    (List.Nodup.filter _ (nodup_dedupFirstAux _ _))

theorem length_jsSlice (l : List α) (a b : Nat) :
    (jsSlice l a b).length = min b l.length - a := by
  simp [jsSlice]

/-! ### Structure of the keyword-search emission -/

theorem mem_fileKeywordMatches_iff (ks : List String) (kw : String) (f : FileEntry)
    (r : ICodeSearchResult) :
    r ∈ fileKeywordMatches ks kw f ↔
      ∃ i, i < (splitLines f.content).length ∧
        jsIncludes (jsToLower ((splitLines f.content).getD i "")) (jsToLower kw) = true ∧
        r = mkSearchResult ks f.path (splitLines f.content) i := by
  show r ∈ (List.range (splitLines f.content).length).filterMap _ ↔ _
  rw [List.mem_filterMap]
  constructor
  · rintro ⟨i, hi, hir⟩
    rw [List.mem_range] at hi
    by_cases hc : jsIncludes (jsToLower ((splitLines f.content).getD i "")) (jsToLower kw)
    · rw [if_pos hc] at hir
      exact ⟨i, hi, hc, (Option.some_inj.1 hir).symm⟩
    · rw [if_neg hc] at hir
      cases hir
  · rintro ⟨i, hi, hc, rfl⟩
    exact ⟨i, List.mem_range.2 hi, by rw [if_pos hc]⟩

theorem filePath_of_mem_fileKeywordMatches (ks : List String) (kw : String) (f : FileEntry)
    (r : ICodeSearchResult) (hr : r ∈ fileKeywordMatches ks kw f) : r.filePath = f.path := by
  obtain ⟨i, -, -, rfl⟩ := (mem_fileKeywordMatches_iff ks kw f r).1 hr
  rfl

theorem countP_filterMap_range (n i : Nat) (cond : Nat → Bool)
    (g : Nat → ICodeSearchResult) (q : ICodeSearchResult → Bool)
    (hq : ∀ j, q (g j) = decide (j = i)) :
    (((List.range n).filterMap fun j => if cond j then some (g j) else none).countP q)
      = if i < n ∧ cond i then 1 else 0 := by
  induction n with
  | zero => simp
  | succ n ih =>
    rw [List.range_succ, List.filterMap_append, List.countP_append, ih]
    have hval : ((List.filterMap (fun j => if cond j then some (g j) else none) [n]).countP q)
        = if n = i ∧ cond n then 1 else 0 := by
      simp only [List.filterMap_cons, List.filterMap_nil]
      by_cases hc : cond n
      · rw [if_pos hc]
        rw [List.countP_cons, List.countP_nil, hq n]
        by_cases hni : n = i
        · subst hni
          simp [hc]
        · simp [hni, hc]
      · rw [if_neg hc]
        simp [hc]
    rw [hval]
    by_cases hci : cond i = true
    · by_cases hin : i < n
      · have h1 : i < n + 1 := by omega
        have hni : ¬ n = i := by omega
        have h2 : ¬ (n = i ∧ cond n = true) := fun h => hni h.1
        simp [hin, hci, h1, h2]
      · by_cases hie : i = n
        · subst hie
          have h1 : i < i + 1 := by omega
          simp [hin, hci, h1]
        · have h1 : ¬ (i < n + 1) := by omega
          have h2 : ¬ (n = i ∧ cond n = true) := fun h => hie h.1.symm
          simp [hin, h1, h2, hci]
    · have h2 : ¬ (n = i ∧ cond n = true) := fun h => hci (h.1 ▸ h.2)
      have h3 : ¬ (i < n ∧ cond i = true) := fun h => hci h.2
      have h4 : ¬ (i < n + 1 ∧ cond i = true) := fun h => hci h.2
      simp [h2, h3, h4]

theorem countP_fileKeywordMatches (ks : List String) (kw : String) (f : FileEntry)
    (p : String) (i : Nat) (hp : f.path = p) :
    ((fileKeywordMatches ks kw f).countP fun r => decide (r.filePath = p ∧ r.lineNumber = i + 1))
      = if i < (splitLines f.content).length ∧
           jsIncludes (jsToLower ((splitLines f.content).getD i "")) (jsToLower kw) = true
        then 1 else 0 := by
  subst hp
  apply countP_filterMap_range
  intro j
  have h1 : (mkSearchResult ks f.path (splitLines f.content) j).filePath = f.path := rfl
  have h2 : (mkSearchResult ks f.path (splitLines f.content) j).lineNumber = j + 1 := rfl
  rw [decide_eq_decide]
  rw [h1, h2]
  constructor
  · rintro ⟨-, h⟩; omega
  · rintro rfl; exact ⟨rfl, rfl⟩

theorem countP_fileKeywordMatches_ne (ks : List String) (kw : String) (f : FileEntry)
    (p : String) (i : Nat) (hp : ¬ f.path = p) :
    ((fileKeywordMatches ks kw f).countP fun r => decide (r.filePath = p ∧ r.lineNumber = i + 1))
      = 0 := by
  rw [List.countP_eq_zero]
  intro r hr
  have := filePath_of_mem_fileKeywordMatches ks kw f r hr
  simp only [decide_eq_true_eq]
  rintro ⟨h1, -⟩
  exact hp (this ▸ h1)

theorem sum_countP_files (ks : List String) (kw : String) (p : String) (i : Nat) :
    ∀ (l : List FileEntry) (f : FileEntry), (l.map FileEntry.path).Nodup → f ∈ l → f.path = p →
      ((l.map fun f' =>
          (fileKeywordMatches ks kw f').countP fun r =>
            decide (r.filePath = p ∧ r.lineNumber = i + 1)).sum)
        = ((fileKeywordMatches ks kw f).countP fun r =>
            decide (r.filePath = p ∧ r.lineNumber = i + 1)) := by
  intro l
  induction l with
  | nil => intro f _ hf _; simp at hf
  | cons f' l ih =>
    intro f hnd hf hp
    rw [List.map_cons, List.sum_cons]
    rw [List.map_cons, List.nodup_cons] at hnd
    by_cases hfp : f'.path = p
    · have htail : ((l.map fun f'' =>
          (fileKeywordMatches ks kw f'').countP fun r =>
            decide (r.filePath = p ∧ r.lineNumber = i + 1)).sum) = 0 := by
        apply List.sum_eq_zero
        intro x hx
        rcases List.mem_map.1 hx with ⟨f'', hf'', rfl⟩
        apply countP_fileKeywordMatches_ne
        intro hc
        apply hnd.1
        rw [hfp, ← hc]
        exact List.mem_map_of_mem FileEntry.path hf''
      have hff : (fileKeywordMatches ks kw f).countP
            (fun r => decide (r.filePath = p ∧ r.lineNumber = i + 1))
          = (fileKeywordMatches ks kw f').countP
            (fun r => decide (r.filePath = p ∧ r.lineNumber = i + 1)) := by
        rcases List.mem_cons.1 hf with rfl | hfl
        · rfl
        · exfalso
          apply hnd.1
          rw [hfp, ← hp]
          exact List.mem_map_of_mem FileEntry.path hfl
      rw [htail, hff, Nat.add_zero]
    · rw [countP_fileKeywordMatches_ne ks kw f' p i hfp, Nat.zero_add]
      have hfl : f ∈ l := by
        rcases List.mem_cons.1 hf with rfl | h
        · exact absurd hp hfp
        · exact h
      exact ih f hnd.2 hfl hp

theorem sum_map_ite_and (c : Prop) [Decidable c] (m : String → Bool) :
    ∀ ks : List String,
      ((ks.map fun kw => if c ∧ m kw = true then 1 else 0).sum : Nat)
        = if c then ks.countP m else 0 := by
  intro ks
  induction ks with
  | nil => simp
  | cons k ks ih =>
    rw [List.map_cons, List.sum_cons, ih, List.countP_cons]
    by_cases hc : c
    · by_cases hm : m k
      · simp [hc, hm]
        omega
      · simp [hc, hm]
    · simp [hc]

theorem mem_searchRelatedCodeRaw_iff (files : List FileEntry) (bug : IBugInfo)
    (r : ICodeSearchResult) :
    r ∈ searchRelatedCodeRaw files bug ↔
      ∃ kw ∈ extractKeywords bug, ∃ f ∈ files.take 50,
        r ∈ fileKeywordMatches (extractKeywords bug) kw f := by
  show r ∈ (extractKeywords bug).flatMap _ ↔ _
  simp [List.mem_flatMap]

theorem countP_searchRelatedCodeRaw (files : List FileEntry) (bug : IBugInfo)
    (f : FileEntry) (p : String) (i : Nat)
    (hnd : ((files.take 50).map FileEntry.path).Nodup)
    (hf : f ∈ files.take 50) (hp : f.path = p) :
    ((searchRelatedCodeRaw files bug).countP fun r =>
        decide (r.filePath = p ∧ r.lineNumber = i + 1))
      = if i < (splitLines f.content).length
        then (extractKeywords bug).countP
               fun kw => jsIncludes (jsToLower ((splitLines f.content).getD i "")) (jsToLower kw)
        else 0 := by
  have hraw : searchRelatedCodeRaw files bug
      = (extractKeywords bug).flatMap
          (fun kw => (files.take 50).flatMap (fileKeywordMatches (extractKeywords bug) kw)) := rfl
  rw [hraw, List.countP_flatMap]
  simp only [Function.comp_def]
  have hinner : ∀ kw : String,
      (List.countP (fun r => decide (r.filePath = p ∧ r.lineNumber = i + 1))
        ((files.take 50).flatMap (fileKeywordMatches (extractKeywords bug) kw)))
      = if i < (splitLines f.content).length ∧
           jsIncludes (jsToLower ((splitLines f.content).getD i "")) (jsToLower kw) = true
        then 1 else 0 := by
    intro kw
    rw [List.countP_flatMap]
    simp only [Function.comp_def]
    rw [sum_countP_files (extractKeywords bug) kw p i (files.take 50) f hnd hf hp]
    rw [countP_fileKeywordMatches (extractKeywords bug) kw f p i hp]
  calc (List.map (fun kw =>
          List.countP (fun r => decide (r.filePath = p ∧ r.lineNumber = i + 1))
            ((files.take 50).flatMap (fileKeywordMatches (extractKeywords bug) kw)))
          (extractKeywords bug)).sum
      = (List.map (fun kw =>
          if i < (splitLines f.content).length ∧
             jsIncludes (jsToLower ((splitLines f.content).getD i "")) (jsToLower kw) = true
          then 1 else 0) (extractKeywords bug)).sum := by
        rw [List.map_congr_left fun kw _ => hinner kw]
    _ = _ := sum_map_ite_and _ _ _

theorem relevance_at_line (files : List FileEntry) (bug : IBugInfo)
    (f : FileEntry) (p : String) (i : Nat)
    (hnd : ((files.take 50).map FileEntry.path).Nodup)
    (hf : f ∈ files.take 50) (hp : f.path = p) :
    ∀ r ∈ searchRelatedCodeRaw files bug, r.filePath = p → r.lineNumber = i + 1 →
      r.relevanceScore = (((extractKeywords bug).countP
        fun kw => jsIncludes (jsToLower ((splitLines f.content).getD i "")) (jsToLower kw) : Nat) : Int) := by
  intro r hr hrp hrl
  obtain ⟨kw, hkw, f', hf', hrm⟩ := (mem_searchRelatedCodeRaw_iff files bug r).1 hr
  obtain ⟨j, hj, hc, rfl⟩ := (mem_fileKeywordMatches_iff _ _ _ _).1 hrm
  have hpath : f'.path = f.path := by
    have h1 : (mkSearchResult (extractKeywords bug) f'.path (splitLines f'.content) j).filePath
        = f'.path := rfl
    rw [hp, ← hrp, h1]
  have hff : f' = f := List.inj_on_of_nodup_map hnd hf' hf hpath
  subst hff
  have hlin : (mkSearchResult (extractKeywords bug) f'.path (splitLines f'.content) j).lineNumber
      = j + 1 := rfl
  rw [hlin] at hrl
  have hji : j = i := by omega
  subst hji
  have hscore : (mkSearchResult (extractKeywords bug) f'.path (splitLines f'.content) j).relevanceScore
      = calculateRelevance ((splitLines f'.content).getD j "") (extractKeywords bug) := rfl
  rw [hscore, calculateRelevance_eq_countP]

/-! ### Structure of `analyzeCodeChanges` -/

theorem gitLogLoop_error :
    ∀ (l : List ICodeSearchResult) (analyzed : List String)
      (gitLog : String → Except Unit String),
      (∀ q ∈ analyzed, ∃ out, gitLog q = .ok out) →
      (∃ loc ∈ l, gitLog loc.filePath = .error ()) →
      gitLogLoop gitLog l analyzed = .error () := by
  intro l
  induction l with
  | nil =>
    rintro analyzed g _ ⟨loc, hmem, -⟩
    simp at hmem
  | cons loc rest ih =>
    rintro analyzed g hok ⟨bad, hbad, herr⟩
    simp only [gitLogLoop]
    split_ifs with hmem
    · apply ih analyzed g hok
      rcases List.mem_cons.1 hbad with rfl | h
      · rcases hok _ hmem with ⟨out, hout⟩
        rw [hout] at herr
        cases herr
      · exact ⟨bad, h, herr⟩
    · cases hgl : g loc.filePath with
      | error e =>
        cases e
        rfl
      | ok stdout =>
        have hrec : gitLogLoop g rest (loc.filePath :: analyzed) = .error () := by
          apply ih _ g
          · intro q hq
            rcases List.mem_cons.1 hq with rfl | h
            · exact ⟨stdout, hgl⟩
            · exact hok q h
          · rcases List.mem_cons.1 hbad with rfl | h
            · rw [hgl] at herr
              cases herr
            · exact ⟨bad, h, herr⟩
        rw [hrec]

/-! ### Structure of the stack-trace branch -/

theorem foldl_append_frames (l : List String) :
    ∀ acc : List IStackTraceFrame,
      l.foldl (fun frames line => frames ++ lineFrames line) acc
        = acc ++ l.flatMap lineFrames := by
  induction l with
  | nil => intro acc; simp
  | cons a t ih =>
    intro acc
    rw [List.foldl_cons, List.flatMap_cons, ih, List.append_assoc]

theorem relevance_resolveFrame (files : List FileEntry) (fr : IStackTraceFrame) :
    ∀ r ∈ resolveFrame files fr, r.relevanceScore = 10 := by
  intro r hr
  unfold resolveFrame at hr
  cases h : findFileInWorkspace files fr.fileName with
  | none =>
    rw [h] at hr
    simp at hr
  | some f =>
    rw [h] at hr
    dsimp only at hr
    split_ifs at hr with hb
    · rw [List.mem_singleton] at hr
      subst hr
      rfl
    · simp at hr

theorem relevance_parseStackTrace (files : List FileEntry) (st : String) :
    ∀ r ∈ parseStackTrace files st, r.relevanceScore = 10 := by
  intro r hr
  rcases List.mem_flatMap.1 hr with ⟨fr, -, hrf⟩
  exact relevance_resolveFrame files fr r hrf

/-! ### Concrete inputs for witnesses and counterexamples -/

def cexC1Files : List FileEntry :=
  [{ path := "Auth.java", content := "class Auth\n  void login()\nend" }]

def cexC1Bug : IBugInfo :=
  { summary := "login fails", description := "login broken",
    stackTrace := some "at com.acme.Auth.login(Auth.java:2)" }

def cexC2GitLog : String → Except Unit String :=
  fun p => if p = "a.ts" then .ok "h1|alice|2024-01-02|add parser" else .error ()

def cexC2LocA : ICodeSearchResult :=
  { filePath := "a.ts", lineNumber := 1, content := "", relevanceScore := 0,
    context := { before := [], after := [] } }

def cexC2LocB : ICodeSearchResult :=
  { filePath := "b.ts", lineNumber := 1, content := "", relevanceScore := 0,
    context := { before := [], after := [] } }

def cexC3Files : List FileEntry :=
  [{ path := "f.ts", content := "alpha beta\nnothing here" }]

def cexC3Bug : IBugInfo :=
  { summary := "alpha beta", description := "" }

def cexC8Files : List FileEntry :=
  [{ path := "f8.ts", content := "gamma delta" }]

def cexC8Bug : IBugInfo :=
  { summary := "gamma delta", description := "" }

def cexC9Files : List FileEntry :=
  [{ path := "g.ts", content := "alpha\nb\nc\nd\ne" }]

def cexC9Bug : IBugInfo :=
  { summary := "alpha", description := "" }

/-! ### C1 — merged candidate list and ranking of stack-trace hits -/

/-- C1 (amended): the merged `suggestedLocations` is the keyword-derived
candidates followed by the stack-trace-derived candidates, with no
re-sorting; every stack-trace-derived candidate carries
`relevanceScore = 10` and is contained in the merged output — but it
appears *after*, not ahead of, the keyword-derived candidates. -/
theorem analyzeBug_merge_structure (files : List FileEntry)
    (gitLog : String → Except Unit String) (chatResult : Except Unit String)
    (bug : IBugInfo) :
    (analyzeBug files gitLog chatResult bug).suggestedLocations
        = searchRelatedCode files bug ++ stackTraceLocations files bug
    ∧ (∀ c ∈ stackTraceLocations files bug, c.relevanceScore = 10)
    ∧ (∀ st, bug.stackTrace = some st →
        ∀ r ∈ parseStackTrace files st,
          r ∈ (analyzeBug files gitLog chatResult bug).suggestedLocations
          ∧ r.relevanceScore = 10) := by
  refine ⟨rfl, ?_, ?_⟩
  · intro c hc
    unfold stackTraceLocations at hc
    cases h : bug.stackTrace with
    | none =>
      rw [h] at hc
      simp at hc
    | some st =>
      rw [h] at hc
      exact relevance_parseStackTrace files st c hc
  · intro st hst r hr
    refine ⟨?_, relevance_parseStackTrace files st r hr⟩
    show r ∈ searchRelatedCode files bug ++ stackTraceLocations files bug
    apply List.mem_append_right
    unfold stackTraceLocations
    rw [hst]
    exact hr

/-- C1 witness: for the concrete bug report, the resolved frame
`Auth.java:2` yields this concrete candidate with score 10 inside the
merged output. -/
theorem analyzeBug_merge_structure_witness :
    cexC1Bug.stackTrace = some "at com.acme.Auth.login(Auth.java:2)"
    ∧ ({ filePath := "Auth.java", lineNumber := 2, content := "void login()",
         relevanceScore := 10,
         context := { before := ["class Auth"], after := ["end"] } } : ICodeSearchResult)
        ∈ (analyzeBug cexC1Files (fun _ => .error ()) (.error ()) cexC1Bug).suggestedLocations := by
  refine ⟨rfl, ?_⟩
  exact ((analyzeBug_merge_structure cexC1Files (fun _ => .error ()) (.error ()) cexC1Bug).2.2
    "at com.acme.Auth.login(Auth.java:2)" rfl
    { filePath := "Auth.java", lineNumber := 2, content := "void login()",
      relevanceScore := 10,
      context := { before := ["class Auth"], after := ["end"] } }
    (by decide)).1

/-- C1 counterexample: in the merged output the stack-trace-derived
candidate (score 10) comes last, after the keyword-derived candidate, so
stack-trace hits are not ranked ahead of keyword hits. -/
theorem analyzeBug_stack_ranked_ahead_cex :
    ((analyzeBug cexC1Files (fun _ => .error ()) (.error ()) cexC1Bug).suggestedLocations.map
        fun r => r.relevanceScore) = [1, 10]
    ∧ ((searchRelatedCode cexC1Files cexC1Bug).map fun r => r.relevanceScore) = [1]
    ∧ ((stackTraceLocations cexC1Files cexC1Bug).map fun r => r.relevanceScore) = [10]
    ∧ decide ((analyzeBug cexC1Files (fun _ => .error ()) (.error ()) cexC1Bug).suggestedLocations
        = stackTraceLocations cexC1Files cexC1Bug ++ searchRelatedCode cexC1Files cexC1Bug) = false := by
  refine ⟨by decide, by decide, by decide, by decide⟩

/-! ### C2 — a history-query failure aborts the whole correlation -/

/-- C2 (amended): the whole correlation loop runs inside one try/catch, so
a log-query failure for any candidate file among the first five makes
`analyzeCodeChanges` return `[]` — the records of the other files are
discarded too. -/
theorem analyzeCodeChanges_failure_aborts (gitLog : String → Except Unit String)
    (locations : List ICodeSearchResult)
    (h : ∃ loc ∈ locations.take 5, gitLog loc.filePath = .error ()) :
    analyzeCodeChanges gitLog locations = [] := by
  unfold analyzeCodeChanges
  rw [gitLogLoop_error (locations.take 5) [] gitLog (by simp) h]

/-- C2 witness: with a succeeding query for `a.ts` and a failing one for
`b.ts`, correlation of both returns `[]`. -/
theorem analyzeCodeChanges_failure_aborts_witness :
    analyzeCodeChanges cexC2GitLog [cexC2LocA, cexC2LocB] = [] :=
  analyzeCodeChanges_failure_aborts cexC2GitLog [cexC2LocA, cexC2LocB]
    ⟨cexC2LocB, by decide, rfl⟩

/-- C2 counterexample: the query for `a.ts` alone yields its commit record,
but as soon as the failing `b.ts` is in the candidate list the whole result
is empty — the record for `a.ts` is not preserved. -/
theorem analyzeCodeChanges_isolation_cex :
    cexC2GitLog "a.ts" = .ok "h1|alice|2024-01-02|add parser"
    ∧ analyzeCodeChanges cexC2GitLog [cexC2LocA] =
        [{ commitHash := "h1", author := "alice", date := "2024-01-02",
           message := "add parser", files := ["a.ts"], suspicious := false, reason := none }]
    ∧ analyzeCodeChanges cexC2GitLog [cexC2LocA, cexC2LocB] = []
    ∧ decide (∃ c ∈ analyzeCodeChanges cexC2GitLog [cexC2LocA, cexC2LocB],
        c.commitHash = "h1") = false := by
  refine ⟨rfl, by decide, by decide, by decide⟩

/-! ### C3 — one candidate per matching keyword, not one per line -/

/-- C3 (amended): for a line of a scanned file, the keyword scan emits one
candidate *per keyword occurring on the line* (so a line with k matching
keywords appears k times), each such candidate's `relevanceScore` equals
the number of distinct keywords on the line, and the keyword list is
duplicate-free. -/
theorem searchRelatedCode_per_keyword_emission (files : List FileEntry)
    (bug : IBugInfo) (f : FileEntry) (p : String) (i : Nat)
    (hnd : ((files.take 50).map FileEntry.path).Nodup)
    (hf : f ∈ files.take 50) (hp : f.path = p) :
    ((searchRelatedCodeRaw files bug).countP fun r =>
        decide (r.filePath = p ∧ r.lineNumber = i + 1))
      = (if i < (splitLines f.content).length
         then (extractKeywords bug).countP
                fun kw => jsIncludes (jsToLower ((splitLines f.content).getD i "")) (jsToLower kw)
         else 0)
    ∧ (∀ r ∈ searchRelatedCodeRaw files bug, r.filePath = p → r.lineNumber = i + 1 →
        r.relevanceScore = (((extractKeywords bug).countP
          fun kw => jsIncludes (jsToLower ((splitLines f.content).getD i "")) (jsToLower kw) : Nat) : Int))
    ∧ (extractKeywords bug).Nodup :=
  ⟨countP_searchRelatedCodeRaw files bug f p i hnd hf hp,
   relevance_at_line files bug f p i hnd hf hp,
   extractKeywords_nodup bug⟩

/-- C3 witness: for the file `f.ts` with line `"alpha beta"` and the two
keywords `alpha`, `beta`, the scan emits exactly two candidates for line 1. -/
theorem searchRelatedCode_per_keyword_emission_witness :
    ((searchRelatedCodeRaw cexC3Files cexC3Bug).countP fun r =>
        decide (r.filePath = "f.ts" ∧ r.lineNumber = 0 + 1)) = 2 := by
  have h := (searchRelatedCode_per_keyword_emission cexC3Files cexC3Bug
    { path := "f.ts", content := "alpha beta\nnothing here" } "f.ts" 0
    (by decide) (by decide) rfl).1
  exact h.trans (by decide)

/-- C3 counterexample: the line `"alpha beta"` contains two keywords, and
the returned candidate list contains two (identical) candidates for it —
not exactly one. -/
theorem searchRelatedCode_single_emission_cex :
    extractKeywords cexC3Bug = ["alpha", "beta"]
    ∧ jsIncludes (jsToLower "alpha beta") (jsToLower "alpha") = true
    ∧ jsIncludes (jsToLower "alpha beta") (jsToLower "beta") = true
    ∧ ((searchRelatedCode cexC3Files cexC3Bug).countP fun r =>
        decide (r.filePath = "f.ts" ∧ r.lineNumber = 1)) = 2
    ∧ decide (((searchRelatedCode cexC3Files cexC3Bug).countP fun r =>
        decide (r.filePath = "f.ts" ∧ r.lineNumber = 1)) = 1) = false := by
  refine ⟨by decide, by decide, by decide, by decide, by decide⟩

/-! ### C4 — the JS/TS grammar is shadowed by the Java grammar -/

/-- C4 (code bug): on `"at doThing (utils.js:10:5)"` the greedy Java
pattern matches first (its `(.+)\(` also spans JS-style lines), producing
fileName `"utils.js:10"`, lineNumber 5, functionName `"doThing "` (with a
trailing space) and an empty className — not the
`{utils.js, 10, doThing}` frame the JS grammar (second conjunct) would
produce, which is exactly what the code's own comment documents for such
lines. -/
theorem extractStackTraceFrames_js_line_shadowed :
    extractStackTraceFrames "at doThing (utils.js:10:5)" =
      [{ fileName := "utils.js:10", lineNumber := 5, functionName := "doThing ",
         className := some "" }]
    ∧ regexFind jsStackRe "at doThing (utils.js:10:5)".data =
        some ["doThing".data, "utils.js".data, "10".data] := by
  refine ⟨by decide, by decide⟩

/-! ### C5 — the fix-suggestion fallback -/

/-- C5: whenever the AI reply fails to parse as structured data, the
assembler returns (never throws) the deterministic fallback suggestion:
`type = 'complex'` with non-empty fix steps, test suggestions and risks. -/
theorem parseFixSuggestion_fallback (aiResponse : String) (analysis : IBugAnalysis) :
    (parseFixSuggestion none aiResponse analysis).type = "complex"
    ∧ 0 < (parseFixSuggestion none aiResponse analysis).fixSteps.length
    ∧ 0 < (parseFixSuggestion none aiResponse analysis).testSuggestions.length
    ∧ 0 < (parseFixSuggestion none aiResponse analysis).risks.length :=
  ⟨rfl, Nat.one_pos, Nat.one_pos, Nat.one_pos⟩

/-! ### C6 — `possibleCauses` is always empty -/

/-- C6: `performAIAnalysis` hard-codes `possibleCauses := []` on both its
paths, so every analysis returned by `analyzeBug` has an empty cause list,
the "possible causes" block of the downstream prompt is empty, and the
fallback root cause of `parseFixSuggestion` is always `"Unknown"`. -/
theorem analyzeBug_possibleCauses_empty (files : List FileEntry)
    (gitLog : String → Except Unit String) (chatResult : Except Unit String)
    (bug : IBugInfo) (aiResponse : String) :
    (analyzeBug files gitLog chatResult bug).possibleCauses = []
    ∧ possibleCausesSection (analyzeBug files gitLog chatResult bug) = ""
    ∧ (parseFixSuggestion none aiResponse (analyzeBug files gitLog chatResult bug)).rootCause
        = "Unknown" := by
  cases chatResult with
  | ok content => exact ⟨rfl, rfl, rfl⟩
  | error e => exact ⟨rfl, rfl, rfl⟩

/-! ### C7 — suspicious-commit classification -/

/-- C7: a commit is suspicious exactly when its lower-cased message
contains a term of the fixed keyword list as a substring; the two spec
examples classify as stated, and the suspicious record carries the fixed
non-empty reason. -/
theorem isSuspiciousCommit_characterization :
    (∀ m : String, isSuspiciousCommit m = true ↔
      ∃ kw ∈ suspiciousKeywords, ∃ u v, (jsToLower m).data = u ++ kw.data ++ v)
    ∧ isSuspiciousCommit "fix: null pointer in parser" = true
    ∧ isSuspiciousCommit "refactor: rename variable" = false
    ∧ (parseCommitLine "src/p.ts" "h1|alice|2024-01-02|fix: null pointer in parser").suspicious = true
    ∧ (parseCommitLine "src/p.ts" "h1|alice|2024-01-02|fix: null pointer in parser").reason
        = some "提交消息包含可疑关键词"
    ∧ 0 < ("提交消息包含可疑关键词" : String).length
    ∧ (parseCommitLine "src/p.ts" "h2|bob|2024-01-03|refactor: rename variable").suspicious = false := by
  refine ⟨?_, by decide, by decide, by decide, by decide, by decide, by decide⟩
  intro m
  show (suspiciousKeywords.any fun kw => jsIncludes (jsToLower m) kw) = true ↔ _
  rw [List.any_eq_true]
  constructor
  · rintro ⟨kw, hkw, hinc⟩
    exact ⟨kw, hkw, (containsList_iff kw.data (jsToLower m).data).1 hinc⟩
  · rintro ⟨kw, hkw, hc⟩
    exact ⟨kw, hkw, (containsList_iff kw.data (jsToLower m).data).2 hc⟩

/-! ### C8 — ranking invariants of the keyword search -/

/-- C8: the keyword-search output is sorted descending by relevance
(stably: order-respecting pairs of the emission survive into the sorted
list), contains no negative score, and has at most 20 entries. -/
theorem searchRelatedCode_ranking_invariants (files : List FileEntry) (bug : IBugInfo) :
    List.Sorted scoreGe (searchRelatedCode files bug)
    ∧ (∀ r ∈ searchRelatedCode files bug, 0 ≤ r.relevanceScore)
    ∧ (searchRelatedCode files bug).length ≤ 20
    ∧ (∀ a b, scoreGe a b → [a, b].Sublist (searchRelatedCodeRaw files bug) →
        [a, b].Sublist (List.insertionSort scoreGe (searchRelatedCodeRaw files bug))) := by
  refine ⟨?_, ?_, ?_, ?_⟩
  · exact List.Pairwise.sublist (List.take_sublist _ _)
      (List.sorted_insertionSort scoreGe (searchRelatedCodeRaw files bug))
  · intro r hr
    have h1 : r ∈ List.insertionSort scoreGe (searchRelatedCodeRaw files bug) :=
      List.mem_of_mem_take hr
    have h2 : r ∈ searchRelatedCodeRaw files bug :=
      (List.perm_insertionSort scoreGe _).mem_iff.1 h1
    obtain ⟨kw, -, f, -, hrm⟩ := (mem_searchRelatedCodeRaw_iff files bug r).1 h2
    obtain ⟨i, -, -, rfl⟩ := (mem_fileKeywordMatches_iff _ _ _ _).1 hrm
    exact calculateRelevance_nonneg _ _
  · show (List.take 20 _).length ≤ 20
    rw [List.length_take]
    exact min_le_left _ _
  · intro a b hab hsub
    exact List.pair_sublist_insertionSort hab hsub

/-- C8 witness: concrete instance — sortedness, bound, non-negativity at a
member, and stability for the concrete order-respecting pair of equal
candidates from the emission. -/
theorem searchRelatedCode_ranking_invariants_witness :
    List.Sorted scoreGe (searchRelatedCode cexC8Files cexC8Bug)
    ∧ (searchRelatedCode cexC8Files cexC8Bug).length ≤ 20
    ∧ 0 ≤ (mkSearchResult (extractKeywords cexC8Bug) "f8.ts" (splitLines "gamma delta") 0).relevanceScore
    ∧ [mkSearchResult (extractKeywords cexC8Bug) "f8.ts" (splitLines "gamma delta") 0,
       mkSearchResult (extractKeywords cexC8Bug) "f8.ts" (splitLines "gamma delta") 0].Sublist
        (List.insertionSort scoreGe (searchRelatedCodeRaw cexC8Files cexC8Bug)) := by
  obtain ⟨h1, h2, h3, h4⟩ := searchRelatedCode_ranking_invariants cexC8Files cexC8Bug
  exact ⟨h1, h3,
    h2 (mkSearchResult (extractKeywords cexC8Bug) "f8.ts" (splitLines "gamma delta") 0) (by decide),
    h4 _ _ (by decide) (by decide)⟩

/-! ### C9 — the context window of keyword candidates -/

/-- C9 (amended): every keyword-search candidate carries a context window
of exactly 2 lines before and 2 lines after the matched line — not 3
after — truncated only at the file boundaries. -/
theorem searchRelatedCode_context_window (files : List FileEntry) (bug : IBugInfo) :
    ∀ r ∈ searchRelatedCodeRaw files bug,
      ∃ f ∈ files.take 50, ∃ i,
        i < (splitLines f.content).length
        ∧ r = mkSearchResult (extractKeywords bug) f.path (splitLines f.content) i
        ∧ r.context.before.length = min 2 i
        ∧ r.context.after.length = min 2 ((splitLines f.content).length - (i + 1)) := by
  intro r hr
  obtain ⟨kw, -, f, hf, hrm⟩ := (mem_searchRelatedCodeRaw_iff files bug r).1 hr
  obtain ⟨i, hi, -, rfl⟩ := (mem_fileKeywordMatches_iff _ _ _ _).1 hrm
  refine ⟨f, hf, i, hi, rfl, ?_, ?_⟩
  · show (jsSlice (splitLines f.content) (i - 2) i).length = min 2 i
    rw [length_jsSlice]
    omega
  · show (jsSlice (splitLines f.content) (i + 1)
      (min (splitLines f.content).length (i + 3))).length = _
    rw [length_jsSlice]
    omega

/-- C9 witness: the candidate for line 1 of the 5-line file `g.ts` has
before-window `min 2 0 = 0` and after-window `min 2 4 = 2`. -/
theorem searchRelatedCode_context_window_witness :
    ∃ f ∈ cexC9Files.take 50, ∃ i,
      i < (splitLines f.content).length
      ∧ mkSearchResult (extractKeywords cexC9Bug) "g.ts" (splitLines "alpha\nb\nc\nd\ne") 0
          = mkSearchResult (extractKeywords cexC9Bug) f.path (splitLines f.content) i
      ∧ (mkSearchResult (extractKeywords cexC9Bug) "g.ts" (splitLines "alpha\nb\nc\nd\ne") 0).context.before.length
          = min 2 i
      ∧ (mkSearchResult (extractKeywords cexC9Bug) "g.ts" (splitLines "alpha\nb\nc\nd\ne") 0).context.after.length
          = min 2 ((splitLines f.content).length - (i + 1)) :=
  searchRelatedCode_context_window cexC9Files cexC9Bug
    (mkSearchResult (extractKeywords cexC9Bug) "g.ts" (splitLines "alpha\nb\nc\nd\ne") 0)
    (by decide)

/-- C9 counterexample: a match on line 1 of a 5-line file (so four lines
follow, the boundary is not reached) gets only 2 lines of after-context,
not 3. -/
theorem searchRelatedCode_after_window_cex :
    ((searchRelatedCode cexC9Files cexC9Bug).map fun r => r.context.after) = [["b", "c"]]
    ∧ ((searchRelatedCode cexC9Files cexC9Bug).map fun r => r.lineNumber) = [1]
    ∧ (splitLines "alpha\nb\nc\nd\ne").length = 5
    ∧ decide (∀ r ∈ searchRelatedCode cexC9Files cexC9Bug,
        r.context.after.length = 3) = false := by
  refine ⟨by decide, by decide, by decide, by decide⟩

/-! ### C10 — frame order and line numbers of the stack-trace parser -/

/-- C10 (amended): the parser emits frames in input top-to-bottom order
(the output is the in-order concatenation of the per-line parses), but a
frame's lineNumber is just the parsed decimal and can be 0; `lineNumber ≥ 1`
does not hold. -/
theorem extractStackTraceFrames_order :
    (∀ s : String, extractStackTraceFrames s = (splitLines s).flatMap lineFrames)
    ∧ ((extractStackTraceFrames "at a.b(C.java:0)").map fun f => f.lineNumber) = [0] := by
  constructor
  · intro s
    unfold extractStackTraceFrames
    rw [foldl_append_frames]
    rfl
  · decide

/-- C10 counterexample: the trace line `at a.b(C.java:0)` parses to a frame
with `lineNumber = 0 < 1`. -/
theorem extractStackTraceFrames_lineNumber_cex :
    ((extractStackTraceFrames "at a.b(C.java:0)").map fun f => f.lineNumber) = [0]
    ∧ decide (∀ f ∈ extractStackTraceFrames "at a.b(C.java:0)", 1 ≤ f.lineNumber) = false := by
  refine ⟨by decide, by decide⟩

end BugAnalysisService
